import Mathlib

/-!
Verification development for the GalSim lensing engine
(galsim/lensing_ps.py): a shallow embedding of the power-spectrum
realizer, the grid bookkeeping of PowerSpectrum, and the query layer,
together with theorems settling the specification claims.

Numeric convention: Python floats are modelled by rational numbers, so
all algebraic identities are exact.  External numerical collaborators
(numpy FFTs, np.sqrt, the 1-D integrator, Bessel functions, the
interpolation primitive) are modelled as explicit parameters, following
section 6 of the specification.
-/

namespace LensingPS

/-- Complex numbers with rational components, modelling the numpy complex
values manipulated by lensing_ps.py. -/
structure Cq where
  re : ℚ
  im : ℚ
  deriving DecidableEq, Repr

/-- Complex conjugation, np.conj. -/
def Cq.conj (a : Cq) : Cq := ⟨a.re, -a.im⟩

/-- Assigning np.real(z) into a complex array stores the real part with a
zero imaginary part. -/
def Cq.realPart (a : Cq) : Cq := ⟨a.re, 0⟩

/-- Scalar multiplication of a complex value by a rational. -/
def Cq.smul (q : ℚ) (a : Cq) : Cq := ⟨q * a.re, q * a.im⟩

/-- The complex zero. -/
def Cq.zero : Cq := ⟨0, 0⟩

theorem Cq.conj_conj (a : Cq) : a.conj.conj = a := by
  cases a; simp [Cq.conj]

theorem Cq.conj_realPart (a : Cq) : (Cq.realPart a).conj = Cq.realPart a := by
  cases a; simp [Cq.conj, Cq.realPart]

/-- A square complex matrix indexed the numpy way: first index is the row
(the y/ky axis), second the column (the x/kx axis). -/
def CMat (n : ℕ) : Type := Fin n → Fin n → Cq

instance (n : ℕ) : DecidableEq (CMat n) := by
  unfold CMat; infer_instance

section FinNeg

variable {n : ℕ}

theorem finValNeg [NeZero n] (i : Fin n) : (-i).val = (n - i.val) % n := rfl

theorem finValNegOfZero [NeZero n] (i : Fin n) (h : i.val = 0) : (-i).val = 0 := by
  rw [finValNeg, h, Nat.sub_zero, Nat.mod_self]

theorem finValNegOfPos [NeZero n] (i : Fin n) (h : 1 ≤ i.val) : (-i).val = n - i.val := by
  rw [finValNeg]
  have hi := i.isLt
  exact Nat.mod_eq_of_lt (by omega)

end FinNeg

/-!
The in-place Hermitian-symmetrisation routine
PowerSpectrumRealizer._make_hermitian performs eight successive numpy
slice assignments on an N-by-N complex array.  The slices used are

  ikx  = slice(0, nx//2+1)      ikxp = slice(1, (nx+1)//2)     ikxn = slice(-1, nx//2, -1)

and likewise for y.  Each assignment below is one hermStep, reading from
the array state left by the previous step, exactly as the sequential
numpy statements do.
-/

/-- Statement P_k[ikyn, 0] = conj(P_k[ikyp, 0]): row n-1-t of column 0
receives the conjugate of row 1+t, i.e. a row y with n/2 < y receives
conj of row n-y. -/
def hermStep1 {n : ℕ} (A : CMat n) : CMat n := fun y x =>
  if h : x.val = 0 ∧ n / 2 < y.val then
    Cq.conj (A ⟨n - y.val, by omega⟩ x)
  else A y x

/-- Statement P_k[0,0] = np.real(P_k[0,0]). -/
def hermStep2 {n : ℕ} (A : CMat n) : CMat n := fun y x =>
  if y.val = 0 ∧ x.val = 0 then Cq.realPart (A y x) else A y x

/-- Statement P_k[ikyp, ikxn] = conj(P_k[ikyn, ikxp]): cell (1+s, n-1-t)
receives the conjugate of cell (n-1-s, 1+t), i.e. cell (y, x) with
1 <= y < (n+1)/2 and n/2 < x receives conj of cell (n-y, n-x). -/
def hermStep3 {n : ℕ} (A : CMat n) : CMat n := fun y x =>
  if h : 1 ≤ y.val ∧ y.val < (n + 1) / 2 ∧ n / 2 < x.val then
    Cq.conj (A ⟨n - y.val, by omega⟩ ⟨n - x.val, by omega⟩)
  else A y x

/-- Statement P_k[ikyn, ikxn] = conj(P_k[ikyp, ikxp]): cell (y, x) with
n/2 < y and n/2 < x receives conj of cell (n-y, n-x). -/
def hermStep4 {n : ℕ} (A : CMat n) : CMat n := fun y x =>
  if h : n / 2 < y.val ∧ n / 2 < x.val then
    Cq.conj (A ⟨n - y.val, by omega⟩ ⟨n - x.val, by omega⟩)
  else A y x

/-- Statement P_k[0, ikxn] = conj(P_k[0, ikxp]): cell (0, x) with
n/2 < x receives conj of cell (0, n-x). -/
def hermStep5 {n : ℕ} (A : CMat n) : CMat n := fun y x =>
  if h : y.val = 0 ∧ n / 2 < x.val then
    Cq.conj (A y ⟨n - x.val, by omega⟩)
  else A y x

/-- Statement (even n only) P_k[ikyn, nx//2] = conj(P_k[ikyp, nx//2]). -/
def hermStep6 {n : ℕ} (A : CMat n) : CMat n := fun y x =>
  if h : n % 2 = 0 ∧ x.val = n / 2 ∧ n / 2 < y.val then
    Cq.conj (A ⟨n - y.val, by omega⟩ x)
  else A y x

/-- Statement (even n only) P_k[ny//2, ikxn] = conj(P_k[ny//2, ikxp]). -/
def hermStep7 {n : ℕ} (A : CMat n) : CMat n := fun y x =>
  if h : n % 2 = 0 ∧ y.val = n / 2 ∧ n / 2 < x.val then
    Cq.conj (A y ⟨n - x.val, by omega⟩)
  else A y x

/-- Statements (even n only) realising the three Nyquist bins
P_k[ny//2, 0], P_k[0, nx//2] and P_k[ny//2, nx//2]. -/
def hermStep8 {n : ℕ} (A : CMat n) : CMat n := fun y x =>
  if n % 2 = 0 ∧ ((y.val = n / 2 ∧ x.val = 0) ∨ (y.val = 0 ∧ x.val = n / 2) ∨
      (y.val = n / 2 ∧ x.val = n / 2)) then
    Cq.realPart (A y x)
  else A y x

/-- PowerSpectrumRealizer._make_hermitian: the eight slice assignments in
source order. -/
def makeHermitian {n : ℕ} (A : CMat n) : CMat n :=
  hermStep8 (hermStep7 (hermStep6 (hermStep5 (hermStep4 (hermStep3 (hermStep2 (hermStep1 A)))))))

section HermLemmas

variable {n : ℕ}

theorem hermStep1_neg (A : CMat n) (y x : Fin n) (h : ¬(x.val = 0 ∧ n / 2 < y.val)) :
    hermStep1 A y x = A y x := dif_neg h

theorem hermStep1_pos (A : CMat n) (y x y2 : Fin n) (h : x.val = 0 ∧ n / 2 < y.val)
    (hy2 : y2.val = n - y.val) :
    hermStep1 A y x = Cq.conj (A y2 x) := by
  unfold hermStep1
  rw [dif_pos h]
  exact congrArg (fun t => Cq.conj (A t x)) (Fin.ext hy2.symm)

theorem hermStep2_neg (A : CMat n) (y x : Fin n) (h : ¬(y.val = 0 ∧ x.val = 0)) :
    hermStep2 A y x = A y x := if_neg h

theorem hermStep2_pos (A : CMat n) (y x : Fin n) (h : y.val = 0 ∧ x.val = 0) :
    hermStep2 A y x = Cq.realPart (A y x) := if_pos h

theorem hermStep3_neg (A : CMat n) (y x : Fin n)
    (h : ¬(1 ≤ y.val ∧ y.val < (n + 1) / 2 ∧ n / 2 < x.val)) :
    hermStep3 A y x = A y x := dif_neg h

theorem hermStep3_pos (A : CMat n) (y x y2 x2 : Fin n)
    (h : 1 ≤ y.val ∧ y.val < (n + 1) / 2 ∧ n / 2 < x.val)
    (hy2 : y2.val = n - y.val) (hx2 : x2.val = n - x.val) :
    hermStep3 A y x = Cq.conj (A y2 x2) := by
  unfold hermStep3
  rw [dif_pos h]
  exact congrArg Cq.conj (congrArg₂ A (Fin.ext hy2.symm) (Fin.ext hx2.symm))

theorem hermStep4_neg (A : CMat n) (y x : Fin n) (h : ¬(n / 2 < y.val ∧ n / 2 < x.val)) :
    hermStep4 A y x = A y x := dif_neg h

theorem hermStep4_pos (A : CMat n) (y x y2 x2 : Fin n) (h : n / 2 < y.val ∧ n / 2 < x.val)
    (hy2 : y2.val = n - y.val) (hx2 : x2.val = n - x.val) :
    hermStep4 A y x = Cq.conj (A y2 x2) := by
  unfold hermStep4
  rw [dif_pos h]
  exact congrArg Cq.conj (congrArg₂ A (Fin.ext hy2.symm) (Fin.ext hx2.symm))

theorem hermStep5_neg (A : CMat n) (y x : Fin n) (h : ¬(y.val = 0 ∧ n / 2 < x.val)) :
    hermStep5 A y x = A y x := dif_neg h

theorem hermStep5_pos (A : CMat n) (y x x2 : Fin n) (h : y.val = 0 ∧ n / 2 < x.val)
    (hx2 : x2.val = n - x.val) :
    hermStep5 A y x = Cq.conj (A y x2) := by
  unfold hermStep5
  rw [dif_pos h]
  exact congrArg (fun t => Cq.conj (A y t)) (Fin.ext hx2.symm)

theorem hermStep6_neg (A : CMat n) (y x : Fin n)
    (h : ¬(n % 2 = 0 ∧ x.val = n / 2 ∧ n / 2 < y.val)) :
    hermStep6 A y x = A y x := dif_neg h

theorem hermStep6_pos (A : CMat n) (y x y2 : Fin n)
    (h : n % 2 = 0 ∧ x.val = n / 2 ∧ n / 2 < y.val) (hy2 : y2.val = n - y.val) :
    hermStep6 A y x = Cq.conj (A y2 x) := by
  unfold hermStep6
  rw [dif_pos h]
  exact congrArg (fun t => Cq.conj (A t x)) (Fin.ext hy2.symm)

theorem hermStep7_neg (A : CMat n) (y x : Fin n)
    (h : ¬(n % 2 = 0 ∧ y.val = n / 2 ∧ n / 2 < x.val)) :
    hermStep7 A y x = A y x := dif_neg h

theorem hermStep7_pos (A : CMat n) (y x x2 : Fin n)
    (h : n % 2 = 0 ∧ y.val = n / 2 ∧ n / 2 < x.val) (hx2 : x2.val = n - x.val) :
    hermStep7 A y x = Cq.conj (A y x2) := by
  unfold hermStep7
  rw [dif_pos h]
  exact congrArg (fun t => Cq.conj (A y t)) (Fin.ext hx2.symm)

theorem hermStep8_neg (A : CMat n) (y x : Fin n)
    (h : ¬(n % 2 = 0 ∧ ((y.val = n / 2 ∧ x.val = 0) ∨ (y.val = 0 ∧ x.val = n / 2) ∨
      (y.val = n / 2 ∧ x.val = n / 2)))) :
    hermStep8 A y x = A y x := if_neg h

theorem hermStep8_pos (A : CMat n) (y x : Fin n)
    (h : n % 2 = 0 ∧ ((y.val = n / 2 ∧ x.val = 0) ∨ (y.val = 0 ∧ x.val = n / 2) ∨
      (y.val = n / 2 ∧ x.val = n / 2))) :
    hermStep8 A y x = Cq.realPart (A y x) := if_pos h

/-- Cells strictly inside the stored half plane (column 1 <= x < n/2) are
untouched by _make_hermitian. -/
theorem makeHermitian_kept_interior (A : CMat n) (y x : Fin n)
    (hx1 : 1 ≤ x.val) (hx2 : x.val < n / 2) :
    makeHermitian A y x = A y x := by
  unfold makeHermitian
  have h8 : ¬(n % 2 = 0 ∧ ((y.val = n / 2 ∧ x.val = 0) ∨ (y.val = 0 ∧ x.val = n / 2) ∨
      (y.val = n / 2 ∧ x.val = n / 2))) := by omega
  have h7 : ¬(n % 2 = 0 ∧ y.val = n / 2 ∧ n / 2 < x.val) := by omega
  have h6 : ¬(n % 2 = 0 ∧ x.val = n / 2 ∧ n / 2 < y.val) := by omega
  have h5 : ¬(y.val = 0 ∧ n / 2 < x.val) := by omega
  have h4 : ¬(n / 2 < y.val ∧ n / 2 < x.val) := by omega
  have h3 : ¬(1 ≤ y.val ∧ y.val < (n + 1) / 2 ∧ n / 2 < x.val) := by omega
  have h2 : ¬(y.val = 0 ∧ x.val = 0) := by omega
  have h1 : ¬(x.val = 0 ∧ n / 2 < y.val) := by omega
  rw [hermStep8_neg _ _ _ h8, hermStep7_neg _ _ _ h7, hermStep6_neg _ _ _ h6,
      hermStep5_neg _ _ _ h5, hermStep4_neg _ _ _ h4, hermStep3_neg _ _ _ h3,
      hermStep2_neg _ _ _ h2, hermStep1_neg _ _ _ h1]

/-- Cells of column 0 with 1 <= y <= n/2, excluding the even-n Nyquist bin,
are untouched by _make_hermitian. -/
theorem makeHermitian_kept_colzero (A : CMat n) (y x : Fin n)
    (hx : x.val = 0) (hy1 : 1 ≤ y.val) (hy2 : y.val ≤ n / 2)
    (hny : ¬(n % 2 = 0 ∧ y.val = n / 2)) :
    makeHermitian A y x = A y x := by
  unfold makeHermitian
  have h8 : ¬(n % 2 = 0 ∧ ((y.val = n / 2 ∧ x.val = 0) ∨ (y.val = 0 ∧ x.val = n / 2) ∨
      (y.val = n / 2 ∧ x.val = n / 2))) := by omega
  have h7 : ¬(n % 2 = 0 ∧ y.val = n / 2 ∧ n / 2 < x.val) := by omega
  have h6 : ¬(n % 2 = 0 ∧ x.val = n / 2 ∧ n / 2 < y.val) := by omega
  have h5 : ¬(y.val = 0 ∧ n / 2 < x.val) := by omega
  have h4 : ¬(n / 2 < y.val ∧ n / 2 < x.val) := by omega
  have h3 : ¬(1 ≤ y.val ∧ y.val < (n + 1) / 2 ∧ n / 2 < x.val) := by omega
  have h2 : ¬(y.val = 0 ∧ x.val = 0) := by omega
  have h1 : ¬(x.val = 0 ∧ n / 2 < y.val) := by omega
  rw [hermStep8_neg _ _ _ h8, hermStep7_neg _ _ _ h7, hermStep6_neg _ _ _ h6,
      hermStep5_neg _ _ _ h5, hermStep4_neg _ _ _ h4, hermStep3_neg _ _ _ h3,
      hermStep2_neg _ _ _ h2, hermStep1_neg _ _ _ h1]

/-- Cells of column 0 below the half plane receive the conjugate of the
mirrored cell in step 1 and are not modified afterwards. -/
theorem makeHermitian_mirror_colzero (A : CMat n) (y x y2 : Fin n)
    (hx : x.val = 0) (hy : n / 2 < y.val) (hy2 : y2.val = n - y.val) :
    makeHermitian A y x = Cq.conj (A y2 x) := by
  unfold makeHermitian
  have h8 : ¬(n % 2 = 0 ∧ ((y.val = n / 2 ∧ x.val = 0) ∨ (y.val = 0 ∧ x.val = n / 2) ∨
      (y.val = n / 2 ∧ x.val = n / 2))) := by omega
  have h7 : ¬(n % 2 = 0 ∧ y.val = n / 2 ∧ n / 2 < x.val) := by omega
  have h6 : ¬(n % 2 = 0 ∧ x.val = n / 2 ∧ n / 2 < y.val) := by omega
  have h5 : ¬(y.val = 0 ∧ n / 2 < x.val) := by omega
  have h4 : ¬(n / 2 < y.val ∧ n / 2 < x.val) := by omega
  have h3 : ¬(1 ≤ y.val ∧ y.val < (n + 1) / 2 ∧ n / 2 < x.val) := by omega
  have h2 : ¬(y.val = 0 ∧ x.val = 0) := by omega
  have h1 : x.val = 0 ∧ n / 2 < y.val := ⟨hx, hy⟩
  rw [hermStep8_neg _ _ _ h8, hermStep7_neg _ _ _ h7, hermStep6_neg _ _ _ h6,
      hermStep5_neg _ _ _ h5, hermStep4_neg _ _ _ h4, hermStep3_neg _ _ _ h3,
      hermStep2_neg _ _ _ h2, hermStep1_pos _ _ _ _ h1 hy2]

/-- Row 0 cells beyond the half plane receive the conjugate of the mirrored
cell in step 5 and are not modified afterwards. -/
theorem makeHermitian_mirror_rowzero (A : CMat n) (y x x2 : Fin n)
    (hy : y.val = 0) (hx : n / 2 < x.val) (hx2 : x2.val = n - x.val) :
    makeHermitian A y x = Cq.conj (A y x2) := by
  unfold makeHermitian
  have h8 : ¬(n % 2 = 0 ∧ ((y.val = n / 2 ∧ x.val = 0) ∨ (y.val = 0 ∧ x.val = n / 2) ∨
      (y.val = n / 2 ∧ x.val = n / 2))) := by omega
  have h7 : ¬(n % 2 = 0 ∧ y.val = n / 2 ∧ n / 2 < x.val) := by omega
  have h6 : ¬(n % 2 = 0 ∧ x.val = n / 2 ∧ n / 2 < y.val) := by omega
  have h5 : y.val = 0 ∧ n / 2 < x.val := ⟨hy, hx⟩
  rw [hermStep8_neg _ _ _ h8, hermStep7_neg _ _ _ h7, hermStep6_neg _ _ _ h6,
      hermStep5_pos _ _ _ x2 h5 hx2]
  congr 1
  rw [hermStep4_neg _ y x2 (by omega), hermStep3_neg _ y x2 (by omega),
      hermStep2_neg _ y x2 (by omega), hermStep1_neg _ y x2 (by omega)]

/-- For even n, cells of the Nyquist column x = n/2 with 1 <= y < n/2 are
untouched by _make_hermitian. -/
theorem makeHermitian_kept_colnyq_even (A : CMat n) (y x : Fin n)
    (hn : n % 2 = 0) (hx : x.val = n / 2) (hy1 : 1 ≤ y.val) (hy2 : y.val < n / 2) :
    makeHermitian A y x = A y x := by
  unfold makeHermitian
  have h8 : ¬(n % 2 = 0 ∧ ((y.val = n / 2 ∧ x.val = 0) ∨ (y.val = 0 ∧ x.val = n / 2) ∨
      (y.val = n / 2 ∧ x.val = n / 2))) := by omega
  have h7 : ¬(n % 2 = 0 ∧ y.val = n / 2 ∧ n / 2 < x.val) := by omega
  have h6 : ¬(n % 2 = 0 ∧ x.val = n / 2 ∧ n / 2 < y.val) := by omega
  have h5 : ¬(y.val = 0 ∧ n / 2 < x.val) := by omega
  have h4 : ¬(n / 2 < y.val ∧ n / 2 < x.val) := by omega
  have h3 : ¬(1 ≤ y.val ∧ y.val < (n + 1) / 2 ∧ n / 2 < x.val) := by omega
  have h2 : ¬(y.val = 0 ∧ x.val = 0) := by omega
  have h1 : ¬(x.val = 0 ∧ n / 2 < y.val) := by omega
  rw [hermStep8_neg _ _ _ h8, hermStep7_neg _ _ _ h7, hermStep6_neg _ _ _ h6,
      hermStep5_neg _ _ _ h5, hermStep4_neg _ _ _ h4, hermStep3_neg _ _ _ h3,
      hermStep2_neg _ _ _ h2, hermStep1_neg _ _ _ h1]

/-- For odd n, cells of the column x = n/2 (which lies inside the stored
half plane) are untouched by _make_hermitian. -/
theorem makeHermitian_kept_colnyq_odd (A : CMat n) (y x : Fin n)
    (hn : n % 2 = 1) (hx : x.val = n / 2) (hx1 : 1 ≤ x.val) :
    makeHermitian A y x = A y x := by
  unfold makeHermitian
  have h8 : ¬(n % 2 = 0 ∧ ((y.val = n / 2 ∧ x.val = 0) ∨ (y.val = 0 ∧ x.val = n / 2) ∨
      (y.val = n / 2 ∧ x.val = n / 2))) := by omega
  have h7 : ¬(n % 2 = 0 ∧ y.val = n / 2 ∧ n / 2 < x.val) := by omega
  have h6 : ¬(n % 2 = 0 ∧ x.val = n / 2 ∧ n / 2 < y.val) := by omega
  have h5 : ¬(y.val = 0 ∧ n / 2 < x.val) := by omega
  have h4 : ¬(n / 2 < y.val ∧ n / 2 < x.val) := by omega
  have h3 : ¬(1 ≤ y.val ∧ y.val < (n + 1) / 2 ∧ n / 2 < x.val) := by omega
  have h2 : ¬(y.val = 0 ∧ x.val = 0) := by omega
  have h1 : ¬(x.val = 0 ∧ n / 2 < y.val) := by omega
  rw [hermStep8_neg _ _ _ h8, hermStep7_neg _ _ _ h7, hermStep6_neg _ _ _ h6,
      hermStep5_neg _ _ _ h5, hermStep4_neg _ _ _ h4, hermStep3_neg _ _ _ h3,
      hermStep2_neg _ _ _ h2, hermStep1_neg _ _ _ h1]

/-- The origin bin is made real by step 2 and not modified afterwards. -/
theorem makeHermitian_self_origin (A : CMat n) (y x : Fin n)
    (hy : y.val = 0) (hx : x.val = 0) :
    makeHermitian A y x = Cq.realPart (A y x) := by
  unfold makeHermitian
  have h8 : ¬(n % 2 = 0 ∧ ((y.val = n / 2 ∧ x.val = 0) ∨ (y.val = 0 ∧ x.val = n / 2) ∨
      (y.val = n / 2 ∧ x.val = n / 2))) := by omega
  have h7 : ¬(n % 2 = 0 ∧ y.val = n / 2 ∧ n / 2 < x.val) := by omega
  have h6 : ¬(n % 2 = 0 ∧ x.val = n / 2 ∧ n / 2 < y.val) := by omega
  have h5 : ¬(y.val = 0 ∧ n / 2 < x.val) := by omega
  have h4 : ¬(n / 2 < y.val ∧ n / 2 < x.val) := by omega
  have h3 : ¬(1 ≤ y.val ∧ y.val < (n + 1) / 2 ∧ n / 2 < x.val) := by omega
  have h2 : y.val = 0 ∧ x.val = 0 := ⟨hy, hx⟩
  rw [hermStep8_neg _ _ _ h8, hermStep7_neg _ _ _ h7, hermStep6_neg _ _ _ h6,
      hermStep5_neg _ _ _ h5, hermStep4_neg _ _ _ h4, hermStep3_neg _ _ _ h3,
      hermStep2_pos _ _ _ h2]
  congr 1
  rw [hermStep1_neg _ _ _ (by omega)]

/-- For even n, the Nyquist bin (n/2, 0) is made real by step 8 and reads
its original value. -/
theorem makeHermitian_self_colnyq0 (A : CMat n) (y x : Fin n)
    (hn : n % 2 = 0) (hy : y.val = n / 2) (hx : x.val = 0) :
    makeHermitian A y x = Cq.realPart (A y x) := by
  unfold makeHermitian
  have h8 : n % 2 = 0 ∧ ((y.val = n / 2 ∧ x.val = 0) ∨ (y.val = 0 ∧ x.val = n / 2) ∨
      (y.val = n / 2 ∧ x.val = n / 2)) := ⟨hn, Or.inl ⟨hy, hx⟩⟩
  rw [hermStep8_pos _ _ _ h8]
  congr 1
  rw [hermStep7_neg _ _ _ (by omega), hermStep6_neg _ _ _ (by omega),
      hermStep5_neg _ _ _ (by omega), hermStep4_neg _ _ _ (by omega),
      hermStep3_neg _ _ _ (by omega), hermStep2_neg _ _ _ (by omega),
      hermStep1_neg _ _ _ (by omega)]

/-- For even n, the Nyquist bin (0, n/2) is made real by step 8 and reads
its original value. -/
theorem makeHermitian_self_rownyq0 (A : CMat n) (y x : Fin n)
    (hn : n % 2 = 0) (hy : y.val = 0) (hx : x.val = n / 2) :
    makeHermitian A y x = Cq.realPart (A y x) := by
  unfold makeHermitian
  have h8 : n % 2 = 0 ∧ ((y.val = n / 2 ∧ x.val = 0) ∨ (y.val = 0 ∧ x.val = n / 2) ∨
      (y.val = n / 2 ∧ x.val = n / 2)) := ⟨hn, Or.inr (Or.inl ⟨hy, hx⟩)⟩
  rw [hermStep8_pos _ _ _ h8]
  congr 1
  rw [hermStep7_neg _ _ _ (by omega), hermStep6_neg _ _ _ (by omega),
      hermStep5_neg _ _ _ (by omega), hermStep4_neg _ _ _ (by omega),
      hermStep3_neg _ _ _ (by omega), hermStep2_neg _ _ _ (by omega),
      hermStep1_neg _ _ _ (by omega)]

/-- For even n, the corner Nyquist bin (n/2, n/2) is made real by step 8 and
reads its original value. -/
theorem makeHermitian_self_nyqnyq (A : CMat n) (y x : Fin n)
    (hn : n % 2 = 0) (hy : y.val = n / 2) (hx : x.val = n / 2) :
    makeHermitian A y x = Cq.realPart (A y x) := by
  unfold makeHermitian
  have h8 : n % 2 = 0 ∧ ((y.val = n / 2 ∧ x.val = 0) ∨ (y.val = 0 ∧ x.val = n / 2) ∨
      (y.val = n / 2 ∧ x.val = n / 2)) := ⟨hn, Or.inr (Or.inr ⟨hy, hx⟩)⟩
  rw [hermStep8_pos _ _ _ h8]
  congr 1
  rw [hermStep7_neg _ _ _ (by omega), hermStep6_neg _ _ _ (by omega),
      hermStep5_neg _ _ _ (by omega), hermStep4_neg _ _ _ (by omega),
      hermStep3_neg _ _ _ (by omega), hermStep2_neg _ _ _ (by omega),
      hermStep1_neg _ _ _ (by omega)]

/-- Cells beyond the half plane with 1 <= y < (n+1)/2 receive the conjugate
of the mirrored cell in step 3. -/
theorem makeHermitian_mirror_upper (A : CMat n) (y x y2 x2 : Fin n)
    (hy1 : 1 ≤ y.val) (hylt : y.val < (n + 1) / 2) (hx : n / 2 < x.val)
    (hy2 : y2.val = n - y.val) (hx2 : x2.val = n - x.val) :
    makeHermitian A y x = Cq.conj (A y2 x2) := by
  unfold makeHermitian
  have h8 : ¬(n % 2 = 0 ∧ ((y.val = n / 2 ∧ x.val = 0) ∨ (y.val = 0 ∧ x.val = n / 2) ∨
      (y.val = n / 2 ∧ x.val = n / 2))) := by omega
  have h7 : ¬(n % 2 = 0 ∧ y.val = n / 2 ∧ n / 2 < x.val) := by omega
  have h6 : ¬(n % 2 = 0 ∧ x.val = n / 2 ∧ n / 2 < y.val) := by omega
  have h5 : ¬(y.val = 0 ∧ n / 2 < x.val) := by omega
  have h4 : ¬(n / 2 < y.val ∧ n / 2 < x.val) := by omega
  have h3 : 1 ≤ y.val ∧ y.val < (n + 1) / 2 ∧ n / 2 < x.val := ⟨hy1, hylt, hx⟩
  rw [hermStep8_neg _ _ _ h8, hermStep7_neg _ _ _ h7, hermStep6_neg _ _ _ h6,
      hermStep5_neg _ _ _ h5, hermStep4_neg _ _ _ h4,
      hermStep3_pos _ _ _ y2 x2 h3 hy2 hx2]
  congr 1
  rw [hermStep2_neg _ y2 x2 (by omega), hermStep1_neg _ y2 x2 (by omega)]

/-- Cells beyond the half plane with y > n/2 receive the conjugate of the
mirrored cell in step 4. -/
theorem makeHermitian_mirror_lower (A : CMat n) (y x y2 x2 : Fin n)
    (hy : n / 2 < y.val) (hx : n / 2 < x.val)
    (hy2 : y2.val = n - y.val) (hx2 : x2.val = n - x.val) :
    makeHermitian A y x = Cq.conj (A y2 x2) := by
  unfold makeHermitian
  have h8 : ¬(n % 2 = 0 ∧ ((y.val = n / 2 ∧ x.val = 0) ∨ (y.val = 0 ∧ x.val = n / 2) ∨
      (y.val = n / 2 ∧ x.val = n / 2))) := by omega
  have h7 : ¬(n % 2 = 0 ∧ y.val = n / 2 ∧ n / 2 < x.val) := by omega
  have h6 : ¬(n % 2 = 0 ∧ x.val = n / 2 ∧ n / 2 < y.val) := by omega
  have h5 : ¬(y.val = 0 ∧ n / 2 < x.val) := by omega
  have h4 : n / 2 < y.val ∧ n / 2 < x.val := ⟨hy, hx⟩
  rw [hermStep8_neg _ _ _ h8, hermStep7_neg _ _ _ h7, hermStep6_neg _ _ _ h6,
      hermStep5_neg _ _ _ h5, hermStep4_pos _ _ _ y2 x2 h4 hy2 hx2]
  congr 1
  rw [hermStep3_neg _ y2 x2 (by omega), hermStep2_neg _ y2 x2 (by omega),
      hermStep1_neg _ y2 x2 (by omega)]

/-- For even n, cells of the Nyquist row y = n/2 beyond the half plane
receive the conjugate of the mirrored cell in step 7. -/
theorem makeHermitian_mirror_rownyq (A : CMat n) (y x x2 : Fin n)
    (hn : n % 2 = 0) (hy : y.val = n / 2) (hx : n / 2 < x.val)
    (hx2 : x2.val = n - x.val) :
    makeHermitian A y x = Cq.conj (A y x2) := by
  unfold makeHermitian
  have h8 : ¬(n % 2 = 0 ∧ ((y.val = n / 2 ∧ x.val = 0) ∨ (y.val = 0 ∧ x.val = n / 2) ∨
      (y.val = n / 2 ∧ x.val = n / 2))) := by omega
  have h7 : n % 2 = 0 ∧ y.val = n / 2 ∧ n / 2 < x.val := ⟨hn, hy, hx⟩
  rw [hermStep8_neg _ _ _ h8, hermStep7_pos _ _ _ x2 h7 hx2]
  congr 1
  rw [hermStep6_neg _ y x2 (by omega), hermStep5_neg _ y x2 (by omega),
      hermStep4_neg _ y x2 (by omega), hermStep3_neg _ y x2 (by omega),
      hermStep2_neg _ y x2 (by omega), hermStep1_neg _ y x2 (by omega)]

/-- For even n, cells of the Nyquist column x = n/2 below the half plane
receive the conjugate of the mirrored cell in step 6. -/
theorem makeHermitian_mirror_colnyq (A : CMat n) (y x y2 : Fin n)
    (hn : n % 2 = 0) (hx : x.val = n / 2) (hy : n / 2 < y.val)
    (hy2 : y2.val = n - y.val) :
    makeHermitian A y x = Cq.conj (A y2 x) := by
  unfold makeHermitian
  have h8 : ¬(n % 2 = 0 ∧ ((y.val = n / 2 ∧ x.val = 0) ∨ (y.val = 0 ∧ x.val = n / 2) ∨
      (y.val = n / 2 ∧ x.val = n / 2))) := by omega
  have h7 : ¬(n % 2 = 0 ∧ y.val = n / 2 ∧ n / 2 < x.val) := by omega
  have h6 : n % 2 = 0 ∧ x.val = n / 2 ∧ n / 2 < y.val := ⟨hn, hx, hy⟩
  rw [hermStep8_neg _ _ _ h8, hermStep7_neg _ _ _ h7, hermStep6_pos _ _ _ y2 h6 hy2]
  congr 1
  rw [hermStep5_neg _ y2 x (by omega), hermStep4_neg _ y2 x (by omega),
      hermStep3_neg _ y2 x (by omega), hermStep2_neg _ y2 x (by omega),
      hermStep1_neg _ y2 x (by omega)]

/-- Classification: every cell of the mirrored region of _make_hermitian
holds the conjugate of the cell at the negated index pair. -/
theorem makeHermitian_mirror [NeZero n] (A : CMat n) (i j : Fin n)
    (h : n / 2 < j.val ∨ (j.val = 0 ∧ n / 2 < i.val) ∨
      (n % 2 = 0 ∧ j.val = n / 2 ∧ n / 2 < i.val)) :
    makeHermitian A i j = Cq.conj (A (-i) (-j)) := by
  rcases h with hj | ⟨hj, hi⟩ | ⟨hn, hj, hi⟩
  · have hj1 : 1 ≤ j.val := by omega
    have vnj : (-j).val = n - j.val := finValNegOfPos j hj1
    by_cases hi0 : i.val = 0
    · have vni0 : (-i).val = 0 := finValNegOfZero i hi0
      have e : -i = i := Fin.ext (by omega)
      rw [e]
      exact makeHermitian_mirror_rowzero A i j (-j) hi0 hj vnj
    · have hi1 : 1 ≤ i.val := by omega
      have vni : (-i).val = n - i.val := finValNegOfPos i hi1
      by_cases hiup : i.val < (n + 1) / 2
      · exact makeHermitian_mirror_upper A i j (-i) (-j) hi1 hiup hj vni vnj
      · by_cases hinyq : i.val = n / 2
        · have hne : n % 2 = 0 := by omega
          have e : -i = i := Fin.ext (by omega)
          rw [e]
          exact makeHermitian_mirror_rownyq A i j (-j) hne hinyq hj vnj
        · exact makeHermitian_mirror_lower A i j (-i) (-j) (by omega) hj vni vnj
  · have vni : (-i).val = n - i.val := finValNegOfPos i (by omega)
    have vnj0 : (-j).val = 0 := finValNegOfZero j hj
    have e : -j = j := Fin.ext (by omega)
    rw [e]
    exact makeHermitian_mirror_colzero A i j (-i) hj hi vni
  · have vni : (-i).val = n - i.val := finValNegOfPos i (by omega)
    have vnj : (-j).val = n - j.val := finValNegOfPos j (by omega)
    have e : -j = j := Fin.ext (by omega)
    rw [e]
    exact makeHermitian_mirror_colnyq A i j (-i) hn hj hi vni

/-- Classification: the four self-paired bins are realised. -/
theorem makeHermitian_selfpaired (A : CMat n) (i j : Fin n)
    (h : (i.val = 0 ∧ j.val = 0) ∨ (n % 2 = 0 ∧ ((i.val = n / 2 ∧ j.val = 0) ∨
      (i.val = 0 ∧ j.val = n / 2) ∨ (i.val = n / 2 ∧ j.val = n / 2)))) :
    makeHermitian A i j = Cq.realPart (A i j) := by
  rcases h with ⟨hi, hj⟩ | ⟨hn, ⟨hi, hj⟩ | ⟨hi, hj⟩ | ⟨hi, hj⟩⟩
  · exact makeHermitian_self_origin A i j hi hj
  · exact makeHermitian_self_colnyq0 A i j hn hi hj
  · exact makeHermitian_self_rownyq0 A i j hn hi hj
  · exact makeHermitian_self_nyqnyq A i j hn hi hj

/-- Classification: all remaining cells are untouched by _make_hermitian. -/
theorem makeHermitian_kept (A : CMat n) (i j : Fin n)
    (hm : ¬(n / 2 < j.val ∨ (j.val = 0 ∧ n / 2 < i.val) ∨
      (n % 2 = 0 ∧ j.val = n / 2 ∧ n / 2 < i.val)))
    (hs : ¬((i.val = 0 ∧ j.val = 0) ∨ (n % 2 = 0 ∧ ((i.val = n / 2 ∧ j.val = 0) ∨
      (i.val = 0 ∧ j.val = n / 2) ∨ (i.val = n / 2 ∧ j.val = n / 2))))) :
    makeHermitian A i j = A i j := by
  by_cases hj0 : j.val = 0
  · exact makeHermitian_kept_colzero A i j hj0 (by omega) (by omega) (by omega)
  · by_cases hjint : j.val < n / 2
    · exact makeHermitian_kept_interior A i j (by omega) hjint
    · by_cases hne : n % 2 = 0
      · exact makeHermitian_kept_colnyq_even A i j hne (by omega) (by omega) (by omega)
      · exact makeHermitian_kept_colnyq_odd A i j (by omega) (by omega) (by omega)

/-- Full-plane Hermitian symmetry of the array produced by _make_hermitian:
the cell at the negated index pair is the conjugate of the cell at (i, j),
for every index pair. -/
theorem makeHermitian_conjNeg [NeZero n] (A : CMat n) (i j : Fin n) :
    makeHermitian A (-i) (-j) = Cq.conj (makeHermitian A i j) := by
  have hvi0 : i.val = 0 → (-i).val = 0 := finValNegOfZero i
  have hvi1 : 1 ≤ i.val → (-i).val = n - i.val := finValNegOfPos i
  have hvj0 : j.val = 0 → (-j).val = 0 := finValNegOfZero j
  have hvj1 : 1 ≤ j.val → (-j).val = n - j.val := finValNegOfPos j
  by_cases hm : n / 2 < j.val ∨ (j.val = 0 ∧ n / 2 < i.val) ∨
      (n % 2 = 0 ∧ j.val = n / 2 ∧ n / 2 < i.val)
  · rw [makeHermitian_mirror A i j hm, Cq.conj_conj]
    exact makeHermitian_kept A (-i) (-j) (by omega) (by omega)
  · by_cases hs : (i.val = 0 ∧ j.val = 0) ∨ (n % 2 = 0 ∧ ((i.val = n / 2 ∧ j.val = 0) ∨
      (i.val = 0 ∧ j.val = n / 2) ∨ (i.val = n / 2 ∧ j.val = n / 2)))
    · have ei : -i = i := Fin.ext (by omega)
      have ej : -j = j := Fin.ext (by omega)
      rw [ei, ej, makeHermitian_selfpaired A i j hs, Cq.conj_realPart]
    · rw [makeHermitian_kept A i j hm hs,
          makeHermitian_mirror A (-i) (-j) (by omega), neg_neg, neg_neg]

end HermLemmas

/-!
PowerSpectrumRealizer: power arrays, amplitudes and the draw sequence.
-/

/-- A half-plane rational array of shape (n, n/2+1), the shape of the
power and amplitude arrays of PowerSpectrumRealizer. -/
def HMat (n : ℕ) : Type := Fin n → Fin (n / 2 + 1) → ℚ

instance (n : ℕ) : DecidableEq (HMat n) := by
  unfold HMat; infer_instance

/-- A power function as resolved by _convert_power_function: either a
plain callable, or a LookupTable carrying its domain bounds x_min, x_max. -/
inductive PowerFun where
  | callable (f : ℚ → ℚ)
  | lookup (f : ℚ → ℚ) (xMin xMax : ℚ)

/-- Evaluation of a power function at a scalar |k|. -/
def PowerFun.eval : PowerFun → ℚ → ℚ
  | .callable f, k => f k
  | .lookup f _ _, k => f k

/-- The quarter-plane scalar |k| grid with the k=0 bin fudged to the
adjacent smallest nonzero value: k[0,0] = k[1,0].  The |k| values
themselves come from the external galsim.utilities.kxky frequency grid
divided by the pixel size, so they enter as the parameter kq. -/
def fudgedK (n : ℕ) (hn : 2 ≤ n) (kq : Fin (n / 2 + 1) → Fin (n / 2 + 1) → ℚ) :
    Fin (n / 2 + 1) → Fin (n / 2 + 1) → ℚ := fun y x =>
  if y.val = 0 ∧ x.val = 0 then kq ⟨1, by omega⟩ ⟨0, by omega⟩ else kq y x

/-- The LookupTable domain check of _generate_power_array: np.min(k) below
x_min or np.max(k) above x_max, i.e. some grid cell outside the domain. -/
def lookupDomainBad (n : ℕ) (k : Fin (n / 2 + 1) → Fin (n / 2 + 1) → ℚ) :
    PowerFun → Bool
  | .callable _ => false
  | .lookup _ xmn xmx => decide (∃ y x, k y x < xmn ∨ xmx < k y x)

/-- PowerSpectrumRealizer._generate_power_array: evaluate the power
function on the fudged quarter-plane |k| grid, force the k=0 bin to zero,
reject negative power, and mirror the rows onto the half plane
(power_array[ikyn, ikx] = P_k[ikyp, ikx]). -/
def generatePowerArray (n : ℕ) (hn : 2 ≤ n)
    (kq : Fin (n / 2 + 1) → Fin (n / 2 + 1) → ℚ) (pf : PowerFun) :
    Except String (HMat n) :=
  let k := fudgedK n hn kq
  if lookupDomainBad n k pf then
    .error "LookupTable P(k) is not defined for full k range on grid"
  else
    let Pk : Fin (n / 2 + 1) → Fin (n / 2 + 1) → ℚ := fun y x =>
      if y.val = 0 ∧ x.val = 0 then 0 else pf.eval (k y x)
    if decide (∃ y x, Pk y x < 0) then
      .error "Negative power found for some values of k!"
    else
      .ok (fun y x =>
        if h : y.val ≤ n / 2 then Pk ⟨y.val, by omega⟩ x
        else Pk ⟨n - y.val, by omega⟩ x)

/-- PowerSpectrumRealizer.set_power for one optional mode: the amplitude is
np.sqrt(power_array) / pixel_size; np.sqrt is the external numpy square
root, modelled by the parameter sqrtFn. -/
def setPowerOpt (n : ℕ) (hn : 2 ≤ n)
    (kq : Fin (n / 2 + 1) → Fin (n / 2 + 1) → ℚ) (pfo : Option PowerFun)
    (pixelSize : ℚ) (sqrtFn : ℚ → ℚ) : Except String (Option (HMat n)) :=
  match pfo with
  | none => .ok none
  | some pf =>
    match generatePowerArray n hn kq pf with
    | .error e => .error e
    | .ok pa => .ok (some (fun y x => sqrtFn (pa y x) / pixelSize))

/-- Modelled from the spec: galsim.utilities.rand_arr fills an array of
the given shape with successive scalar draws from the Gaussian random
source, in row-major order.  The source is modelled as a stream g read at
a cursor c; the filled array and the advanced cursor are returned. -/
def randArr (rows cols : ℕ) (g : ℕ → ℚ) (c : ℕ) :
    (Fin rows → Fin cols → ℚ) × ℕ :=
  (fun y x => g (c + y.val * cols + x.val), c + rows * cols)

/-- The half-plane fill E_k[:, ikx] = amplitude * (r1 + i r2) * ISQRT2 of
PowerSpectrumRealizer.__call__.  Columns beyond the half plane keep the
uninitialised np.empty contents (the parameter junk) until
_make_hermitian overwrites them; ISQRT2 = np.sqrt(1/2) is an external
real constant kept as a parameter. -/
def halfPlaneFill (n : ℕ) (amp r1 r2 : HMat n) (isqrt2 : ℚ) (junk : CMat n) :
    CMat n := fun y x =>
  if h : x.val ≤ n / 2 then
    ⟨amp y ⟨x.val, by omega⟩ * r1 y ⟨x.val, by omega⟩ * isqrt2,
     amp y ⟨x.val, by omega⟩ * r2 y ⟨x.val, by omega⟩ * isqrt2⟩
  else junk y x

/-- The full-plane Fourier array of one mode: half-plane fill from the
amplitude and the two normal draws, then Hermitian symmetrisation.  Both
the E-mode and the B-mode arrays of __call__ are produced this way. -/
def modeField (n : ℕ) (amp r1 r2 : HMat n) (isqrt2 : ℚ) (junk : CMat n) :
    CMat n :=
  makeHermitian (halfPlaneFill n amp r1 r2 isqrt2 junk)

/-- One mode of PowerSpectrumRealizer.__call__: draw the r1 array, then
the r2 array, and build the mode Fourier array. -/
def modeFourier (n : ℕ) (amp : HMat n) (isqrt2 : ℚ) (junk : CMat n)
    (g : ℕ → ℚ) (c : ℕ) : CMat n × ℕ :=
  let a1 := randArr n (n / 2 + 1) g c
  let a2 := randArr n (n / 2 + 1) g a1.2
  (modeField n amp a1.1 a2.1 isqrt2 junk, a2.2)

/-- PowerSpectrumRealizer.__call__ up to the Fourier-space arrays: the
E-mode realization is drawn first (r1 pass then r2 pass), then the B-mode
realization; an absent mode contributes a zero array and no draws.  The
real-space (g1, g2, kappa) grids are the external numpy inverse FFTs of
these arrays and are not needed by the claims below. -/
def realizerCall (n : ℕ) (ampE ampB : Option (HMat n)) (isqrt2 : ℚ)
    (junkE junkB : CMat n) (g : ℕ → ℚ) (c : ℕ) : (CMat n × CMat n) × ℕ :=
  let eres : CMat n × ℕ :=
    match ampE with
    | some amp => modeFourier n amp isqrt2 junkE g c
    | none => (fun _ _ => Cq.zero, c)
  let bres : CMat n × ℕ :=
    match ampB with
    | some amp => modeFourier n amp isqrt2 junkB g eres.2
    | none => (fun _ _ => Cq.zero, eres.2)
  ((eres.1, bres.1), bres.2)

/-- The realizer portion of PowerSpectrum.buildGrid: the total grid size
is ngrid * kmin_factor * kmax_factor, the realizer pixel size is
grid_spacing / kmax_factor, and the realizer construction (which computes
both power arrays) happens before any random draw, so a power-spectrum
error leaves the stream cursor where it started. -/
def buildGridRealize (ngrid kminFactor kmaxFactor : ℕ)
    (hn : 2 ≤ ngrid * kminFactor * kmaxFactor)
    (kq : Fin (ngrid * kminFactor * kmaxFactor / 2 + 1) →
      Fin (ngrid * kminFactor * kmaxFactor / 2 + 1) → ℚ)
    (pE pB : Option PowerFun) (gridSpacing : ℚ) (sqrtFn : ℚ → ℚ)
    (isqrt2 : ℚ) (junkE junkB : CMat (ngrid * kminFactor * kmaxFactor))
    (g : ℕ → ℚ) (c : ℕ) :
    Except String (CMat (ngrid * kminFactor * kmaxFactor) ×
      CMat (ngrid * kminFactor * kmaxFactor)) × ℕ :=
  let pixelSize := gridSpacing / (kmaxFactor : ℚ)
  match setPowerOpt (ngrid * kminFactor * kmaxFactor) hn kq pE pixelSize sqrtFn with
  | .error e => (.error e, c)
  | .ok aE =>
    match setPowerOpt (ngrid * kminFactor * kmaxFactor) hn kq pB pixelSize sqrtFn with
    | .error e => (.error e, c)
    | .ok aB =>
      let r := realizerCall (ngrid * kminFactor * kmaxFactor) aE aB isqrt2 junkE junkB g c
      (.ok r.1, r.2)

/-- PowerSpectrum.nRandCallsForBuildGrid: temp = 2 * ngrid_tot *
(ngrid_tot // 2 + 1), added once for each power function present. -/
def nRandCallsForBuildGrid (ngridTot : ℕ) (hasE hasB : Bool) : ℕ :=
  (if hasE then 2 * (ngridTot * (ngridTot / 2 + 1)) else 0) +
  (if hasB then 2 * (ngridTot * (ngridTot / 2 + 1)) else 0)

/-!
theoryToObserved and the grid bookkeeping of PowerSpectrum.buildGrid.
-/

/-- theoryToObserved: reduced shear and magnification from theoretical
shear and convergence.  The numpy operations are elementwise on arrays of
equal shape, so the scalar map captures them. -/
def theoryToObserved (gamma1 gamma2 kappa : ℚ) : ℚ × ℚ × ℚ :=
  (gamma1 / (1 - kappa), gamma2 / (1 - kappa),
   1 / ((1 - kappa) ^ 2 - (gamma1 ^ 2 + gamma2 ^ 2)))

/-- Python floor division a // b on floats: the floor of the true
quotient. -/
def pyFloorDiv (a b : ℚ) : ℚ := ((⌊a / b⌋ : ℤ) : ℚ)

/-- The stored grid spacing of buildGrid:
self.grid_spacing = grid_spacing // kmax_factor (floor division as
written in the source). -/
def buildGridStoredSpacing (gridSpacing : ℚ) (kmaxFactor : ℕ) : ℚ :=
  pyFloorDiv gridSpacing (kmaxFactor : ℚ)

/-- The realizer pixel size of buildGrid:
self.pixel_size = grid_spacing / kmax_factor (true division). -/
def buildGridPixelSize (gridSpacing : ℚ) (kmaxFactor : ℕ) : ℚ :=
  gridSpacing / (kmaxFactor : ℚ)

/-- The band-limit wavenumber of buildGrid: k_max = pi / self.grid_spacing,
computed from the stored spacing.  The real constant pi enters as the
parameter piV. -/
def buildGridKmaxValue (piV gridSpacing : ℚ) (kmaxFactor : ℕ) : ℚ :=
  piV / buildGridStoredSpacing gridSpacing kmaxFactor

/-!
subsampleGrid and numpy striding.
-/

/-- Helper for numpy slicing: keep the elements whose position (counted
from i) is a multiple of f. -/
def everyNthAux {α : Type} (f : ℕ) : List α → ℕ → List α
  | [], _ => []
  | a :: l, i =>
    if i % f = 0 then a :: everyNthAux f l (i + 1) else everyNthAux f l (i + 1)

/-- Numpy basic slicing l[::f]: the elements at indices 0, f, 2f, ... -/
def everyNth {α : Type} (f : ℕ) (l : List α) : List α := everyNthAux f l 0

/-- Numpy 2-D striding a[::f, ::f]. -/
def stride2 (f : ℕ) (m : List (List ℚ)) : List (List ℚ) :=
  (everyNth f m).map (everyNth f)

/-- The stored grid state of a PowerSpectrum after buildGrid, as read and
written by subsampleGrid: the ImageD arrays im_g1/im_g2/im_kappa, the
plain arrays grid_g1/grid_g2/grid_kappa kept alongside them, the stored
grid spacing, the stored center and the even-ngrid adjust flag. -/
structure PSGridState where
  imG1 : List (List ℚ)
  imG2 : List (List ℚ)
  imKappa : List (List ℚ)
  gridG1 : List (List ℚ)
  gridG2 : List (List ℚ)
  gridKappa : List (List ℚ)
  gridSpacing : ℚ
  center : ℚ × ℚ
  adjustCenter : Bool
  deriving DecidableEq, Repr

/-- PowerSpectrum.subsampleGrid: validates the factor against the current
effective grid size, replaces the stored im_* images by the strided
arrays, adjusts the center when the even-size nudge was applied, scales
the stored grid spacing, and returns self.grid_g1, self.grid_g2 (and
self.grid_kappa when get_convergence is set). -/
def subsampleGrid (st : PSGridState) (subsampleFac : ℕ) (getConvergence : Bool) :
    Except String (PSGridState ×
      (List (List ℚ) × List (List ℚ) × Option (List (List ℚ)))) :=
  let effectiveNgrid := st.imG1.length
  if effectiveNgrid % subsampleFac ≠ 0 ∨ subsampleFac ≤ 1 then
    .error "Subsample factor must be an integer>1 that divides the grid size!"
  else
    let newCenter :=
      if st.adjustCenter then
        (st.center.1 + 1 / 2 * st.gridSpacing * ((subsampleFac : ℚ) - 1),
         st.center.2 + 1 / 2 * st.gridSpacing * ((subsampleFac : ℚ) - 1))
      else st.center
    let st2 : PSGridState :=
      { st with
        imG1 := stride2 subsampleFac st.imG1
        imG2 := stride2 subsampleFac st.imG2
        imKappa := stride2 subsampleFac st.imKappa
        center := newCenter
        gridSpacing := st.gridSpacing * (subsampleFac : ℚ) }
    .ok (st2, (st.gridG1, st.gridG2,
      if getConvergence then some st.gridKappa else none))

/-!
Interpolation query layer.  The SBInterpolatedImage primitive is external
(section 6 of the spec); it enters as a parameter mapping a kernel
coordinate to the interpolated surface value.
-/

/-- Modelled from the spec: galsim.BoundsD and its membership test
bounds.includes(pos), the closed axis-aligned rectangle test. -/
structure BoundsD where
  xmin : ℚ
  xmax : ℚ
  ymin : ℚ
  ymax : ℚ
  deriving DecidableEq, Repr

/-- Membership in the (already epsilon-expanded) stored bounds. -/
def BoundsD.includes (b : BoundsD) (p : ℚ × ℚ) : Bool :=
  decide (b.xmin ≤ p.1 ∧ p.1 ≤ b.xmax ∧ b.ymin ≤ p.2 ∧ p.2 ≤ b.ymax)

/-- Python float modulo: a % m = a - m * floor(a / m). -/
def pyMod (a m : ℚ) : ℚ := a - m * ((⌊a / m⌋ : ℤ) : ℚ)

/-- The query geometry stored by buildGrid: expanded bounds, stored
center, stored grid spacing. -/
structure QueryGeom where
  bounds : BoundsD
  center : ℚ × ℚ
  gridSpacing : ℚ

/-- The kernel coordinate of a query position:
(pos - self.center) / self.grid_spacing. -/
def kernelCoord (qg : QueryGeom) (p : ℚ × ℚ) : ℚ × ℚ :=
  ((p.1 - qg.center.1) / qg.gridSpacing, (p.2 - qg.center.2) / qg.gridSpacing)

/-- The periodic wrap of an out-of-bounds position into the primary
domain: (pos - min) % extent + min, per axis. -/
def wrapPos (qg : QueryGeom) (p : ℚ × ℚ) : ℚ × ℚ :=
  (pyMod (p.1 - qg.bounds.xmin) (qg.bounds.xmax - qg.bounds.xmin) + qg.bounds.xmin,
   pyMod (p.2 - qg.bounds.ymin) (qg.bounds.ymax - qg.bounds.ymin) + qg.bounds.ymin)

/-- One iteration of the getShear position loop: an out-of-bounds position
either warns and yields (0, 0) (non-periodic) or wraps and interpolates
(periodic); an in-bounds position is interpolated directly.  The Bool
component records whether the warning was emitted. -/
def getShearPoint (qg : QueryGeom) (xv1 xv2 : ℚ × ℚ → ℚ) (periodic : Bool)
    (p : ℚ × ℚ) : (ℚ × ℚ) × Bool :=
  if qg.bounds.includes p = false then
    if periodic = false then (((0 : ℚ), (0 : ℚ)), true)
    else ((xv1 (kernelCoord qg (wrapPos qg p)),
           xv2 (kernelCoord qg (wrapPos qg p))), false)
  else ((xv1 (kernelCoord qg p), xv2 (kernelCoord qg p)), false)

/-- One iteration of the getConvergence position loop: the out-of-bounds
non-periodic fallback is kappa = 0. -/
def getConvergencePoint (qg : QueryGeom) (xvk : ℚ × ℚ → ℚ) (periodic : Bool)
    (p : ℚ × ℚ) : ℚ × Bool :=
  if qg.bounds.includes p = false then
    if periodic = false then ((0 : ℚ), true)
    else (xvk (kernelCoord qg (wrapPos qg p)), false)
  else (xvk (kernelCoord qg p), false)

/-- One iteration of the getMagnification position loop: the interpolated
surface is built from mu - 1 and 1 is added back after interpolation; the
out-of-bounds non-periodic fallback is mu = 1. -/
def getMagnificationPoint (qg : QueryGeom) (xvmu : ℚ × ℚ → ℚ)
    (periodic : Bool) (p : ℚ × ℚ) : ℚ × Bool :=
  if qg.bounds.includes p = false then
    if periodic = false then ((1 : ℚ), true)
    else (xvmu (kernelCoord qg (wrapPos qg p)) + 1, false)
  else (xvmu (kernelCoord qg p) + 1, false)

/-- The position loop shared by the query methods: collect the per-point
values in order and count the emitted warnings. -/
def queryLoop {α : Type} (f : ℚ × ℚ → α × Bool) : List (ℚ × ℚ) → List α × ℕ
  | [] => ([], 0)
  | p :: ps =>
    let r := f p
    let rest := queryLoop f ps
    (r.1 :: rest.1, (if r.2 then 1 else 0) + rest.2)

/-!
calculateXi.
-/

/-- PowerSpectrum._hard_cutoff: float(k < k_max). -/
def hardCutoff (k kMaxV : ℚ) : ℚ := if k < kMaxV then 1 else 0

/-- The per-call wrapping of a power function in buildGrid and
calculateXi: the delta2 conversion P = 2 pi Delta2 / k^2, the unit scale,
and the band-limit filter.  The band-limit function (the hard cutoff, the
arctan softening, or the constant 1) enters as the parameter bl. -/
def wrapPower (pf : ℚ → ℚ) (delta2 : Bool) (scale : ℚ) (bl : ℚ → ℚ → ℚ)
    (piV kMaxV : ℚ) : ℚ → ℚ := fun k =>
  if delta2 then
    2 * piV * pf (scale * k) / k ^ 2 * bl (scale * k) (scale * kMaxV)
  else if scale ≠ 1 then
    pf (scale * k) * scale ^ 2 * bl (scale * k) (scale * kMaxV)
  else pf k * bl k kMaxV

/-- The xi_+ integrand class: k * P(k) * J0(r k); galsim.bessel.j0 is
external and enters as a parameter. -/
def xipIntegrand (pk : ℚ → ℚ) (r : ℚ) (j0 : ℚ → ℚ) : ℚ → ℚ := fun k =>
  k * pk k * j0 (r * k)

/-- The xi_- integrand class: k * P(k) * J4(r k). -/
def ximIntegrand (pk : ℚ → ℚ) (r : ℚ) (j4 : ℚ → ℚ) : ℚ → ℚ := fun k =>
  k * pk k * j4 (r * k)

/-- PowerSpectrum.calculateXi for an E-mode-only spectrum (p_B is None, so
both integrands use p_E): k_max = kmax_factor * pi / grid_spacing, k_min
= 2 pi / (ngrid * grid_spacing * kmin_factor), and for each separation
theta[i] the two 1-D integrals over [k_min, k_max], each divided by 2 pi.
The separations (numpy logspace), the integrator galsim.integ.int1d and
the Bessel functions are external collaborators and enter as parameters. -/
def calculateXiE (epf : ℚ → ℚ) (delta2 : Bool) (scale : ℚ)
    (bl : ℚ → ℚ → ℚ) (piV gridSpacing : ℚ) (ngrid kminFactor kmaxFactor : ℕ)
    (nTheta : ℕ) (theta : Fin nTheta → ℚ)
    (int1d : (ℚ → ℚ) → ℚ → ℚ → ℚ) (j0 j4 : ℚ → ℚ) :
    (Fin nTheta → ℚ) × (Fin nTheta → ℚ) :=
  let kMaxV := (kmaxFactor : ℚ) * piV / gridSpacing
  let kMinV := 2 * piV / ((ngrid : ℚ) * gridSpacing * (kminFactor : ℚ))
  let pE := wrapPower epf delta2 scale bl piV kMaxV
  (fun i => int1d (xipIntegrand pE (theta i) j0) kMinV kMaxV / (2 * piV),
   fun i => int1d (ximIntegrand pE (theta i) j4) kMinV kMaxV / (2 * piV))

/-!
The Python name-resolution model for _convert_power_function.
-/

/-- Python exception kinds relevant to _convert_power_function. -/
inductive PyErr where
  | valueError (msg : String)
  | nameError (missing : String)
  | attributeError (msg : String)
  deriving DecidableEq, Repr

/-- The local names bound in PowerSpectrum._convert_power_function at the
point where the handler message is built: the parameters self, pf and
pf_str, the imported os, and the except-clause binding e.  No assignment
to origpf exists anywhere in the function. -/
def convertLocals : List String := ["self", "pf", "pf_str", "os", "e"]

/-- Python name resolution: evaluating an identifier that is bound in no
enclosing scope raises NameError. -/
def lookupName (env : List String) (nm : String) : Except PyErr String :=
  if nm ∈ env then .ok nm else .error (.nameError nm)

/-- Building the handler message of _convert_power_function: the format
call references origpf, so the message construction resolves that name
before any ValueError can be raised. -/
def convertErrorMessage : Except PyErr String :=
  match lookupName convertLocals "origpf" with
  | .error e => .error e
  | .ok _ =>
    .ok "String power_spectrum must either be a valid filename or something that can be evaluated to a function of k."

/-- The string branch of _convert_power_function: an existing file becomes
a LookupTable; otherwise the string is turned into a lambda and probed at
k = 1.0, and on failure the handler attempts to raise ValueError with the
message built by convertErrorMessage.  The file-system probe and the
probe outcome are external and enter as oracles. -/
def convertPowerFunctionString (isFile evalOk : String → Bool) (s : String) :
    Except PyErr Unit :=
  if isFile s then .ok ()
  else if evalOk s then .ok ()
  else
    match convertErrorMessage with
    | .error e => .error e
    | .ok msg => .error (.valueError msg)

/-- The validation portion of PowerSpectrum.__init__ for string inputs:
requires at least one mode, then test-converts each provided power
function in order. -/
def powerSpectrumInitStrings (isFile evalOk : String → Bool)
    (epf bpf : Option String) : Except PyErr Unit :=
  if epf = none ∧ bpf = none then
    .error (.attributeError
      "At least one of e_power_function or b_power_function must be provided.")
  else
    match (match epf with
           | some s => convertPowerFunctionString isFile evalOk s
           | none => .ok ()) with
    | .error e => .error e
    | .ok _ =>
      match bpf with
      | some s => convertPowerFunctionString isFile evalOk s
      | none => .ok ()

/-!
Claim theorems.
-/

/-- Claim C8, counterexample: the inputs (0,0,0) and (0,0,2) both satisfy
kappa different from 1 and shear square sum different from (1-kappa)^2,
and theoryToObserved maps both to the same outputs (0,0,1), so the
outputs do not determine the inputs as the claim states. -/
theorem theoryToObserved_not_injective :
    theoryToObserved 0 0 0 = theoryToObserved 0 0 2 ∧
    ¬(((0 : ℚ), (0 : ℚ), (0 : ℚ)) = ((0 : ℚ), (0 : ℚ), (2 : ℚ))) ∧
    (0 : ℚ) ≠ 1 ∧ (2 : ℚ) ≠ 1 ∧
    ((0 : ℚ) ^ 2 + (0 : ℚ) ^ 2) ≠ (1 - 0) ^ 2 ∧
    ((0 : ℚ) ^ 2 + (0 : ℚ) ^ 2) ≠ (1 - 2) ^ 2 := by
  refine ⟨?_, by norm_num [Prod.ext_iff], by norm_num, by norm_num,
    by norm_num, by norm_num⟩
  norm_num [theoryToObserved]

/-- Claim C8 (amended): theoryToObserved computes elementwise
g1 = gamma1/(1-kappa), g2 = gamma2/(1-kappa),
mu = 1/((1-kappa)^2 - (gamma1^2+gamma2^2)), and restricted to inputs with
kappa < 1 (and shear square sum away from (1-kappa)^2) the outputs
determine the inputs. -/
theorem theoryToObserved_roundtrip (a1 a2 ak b1 b2 bk : ℚ)
    (hka : ak < 1) (hkb : bk < 1)
    (hga : a1 ^ 2 + a2 ^ 2 ≠ (1 - ak) ^ 2)
    (hgb : b1 ^ 2 + b2 ^ 2 ≠ (1 - bk) ^ 2)
    (heq : theoryToObserved a1 a2 ak = theoryToObserved b1 b2 bk) :
    a1 = b1 ∧ a2 = b2 ∧ ak = bk := by
  have hua : (0 : ℚ) < 1 - ak := by linarith
  have hub : (0 : ℚ) < 1 - bk := by linarith
  have hda : (1 - ak) ^ 2 - (a1 ^ 2 + a2 ^ 2) ≠ 0 := sub_ne_zero.mpr (Ne.symm hga)
  have hdb : (1 - bk) ^ 2 - (b1 ^ 2 + b2 ^ 2) ≠ 0 := sub_ne_zero.mpr (Ne.symm hgb)
  simp only [theoryToObserved, Prod.mk.injEq] at heq
  obtain ⟨e1, e2, e3⟩ := heq
  have h1 : a1 * (1 - bk) = b1 * (1 - ak) := by
    field_simp [hua.ne', hub.ne'] at e1
    linarith
  have h2 : a2 * (1 - bk) = b2 * (1 - ak) := by
    field_simp [hua.ne', hub.ne'] at e2
    linarith
  have h3 : (1 - ak) ^ 2 - (a1 ^ 2 + a2 ^ 2) = (1 - bk) ^ 2 - (b1 ^ 2 + b2 ^ 2) := by
    field_simp [hda, hdb] at e3
    linarith
  have hsum : (a1 ^ 2 + a2 ^ 2) * (1 - bk) ^ 2 = (b1 ^ 2 + b2 ^ 2) * (1 - ak) ^ 2 := by
    have h1sq : (a1 * (1 - bk)) ^ 2 = (b1 * (1 - ak)) ^ 2 := by rw [h1]
    have h2sq : (a2 * (1 - bk)) ^ 2 = (b2 * (1 - ak)) ^ 2 := by rw [h2]
    ring_nf at h1sq h2sq ⊢
    linarith
  have hD : ((1 - ak) ^ 2 - (1 - bk) ^ 2) * ((1 - ak) ^ 2 - (a1 ^ 2 + a2 ^ 2)) = 0 := by
    linear_combination (1 - ak) ^ 2 * h3 + hsum
  have hD0 : (1 - ak) ^ 2 - (1 - bk) ^ 2 = 0 := by
    rcases mul_eq_zero.mp hD with h | h
    · exact h
    · exact absurd h hda
  have hfac : ((1 - ak) - (1 - bk)) * ((1 - ak) + (1 - bk)) = 0 := by
    linear_combination hD0
  have huab : (1 - ak) = (1 - bk) := by
    rcases mul_eq_zero.mp hfac with h | h
    · linarith
    · linarith
  have hk : ak = bk := by linarith
  refine ⟨?_, ?_, hk⟩
  · have := h1
    rw [huab] at this
    exact mul_right_cancel₀ hub.ne' this
  · have := h2
    rw [huab] at this
    exact mul_right_cancel₀ hub.ne' this

/-- Claim C8, witness: the amended round trip applied at a concrete
admissible input. -/
theorem theoryToObserved_roundtrip_witness :
    (1 : ℚ) / 2 < 1 ∧ ((1 : ℚ) / 10) ^ 2 + (0 : ℚ) ^ 2 ≠ (1 - 1 / 2) ^ 2 ∧
    ((1 : ℚ) / 10 = 1 / 10 ∧ (0 : ℚ) = 0 ∧ (1 : ℚ) / 2 = 1 / 2) :=
  ⟨by norm_num, by norm_num,
    theoryToObserved_roundtrip (1 / 10) 0 (1 / 2) (1 / 10) 0 (1 / 2)
      (by norm_num) (by norm_num) (by norm_num) (by norm_num) rfl⟩

/-- Claim C2 (code-bug evaluation): with input spacing 1.0 and
kmax_factor 2 the source stores grid_spacing // kmax_factor = 0 (floor
division), while the realizer pixel size on the same inputs is the true
quotient 1/2; the stored value is what feeds k_max = pi / grid_spacing. -/
theorem buildGrid_storedSpacing_floorDiv :
    buildGridStoredSpacing 1 2 = 0 ∧
    buildGridPixelSize 1 2 = 1 / 2 ∧
    buildGridStoredSpacing 1 2 ≠ buildGridPixelSize 1 2 ∧
    ∀ piV : ℚ, buildGridKmaxValue piV 1 2 = piV / 0 := by
  have hfl : buildGridStoredSpacing 1 2 = 0 := by
    unfold buildGridStoredSpacing pyFloorDiv
    have h2 : ((2 : ℕ) : ℚ) = 2 := by norm_num
    rw [h2]
    have hf0 : ⌊(1 : ℚ) / 2⌋ = 0 := by
      rw [Int.floor_eq_zero_iff, Set.mem_Ico]
      constructor <;> norm_num
    rw [hf0]
    norm_num
  refine ⟨hfl, by norm_num [buildGridPixelSize], ?_, ?_⟩
  · rw [hfl]
    norm_num [buildGridPixelSize]
  · intro piV
    unfold buildGridKmaxValue
    rw [hfl]

/-- The 2-by-2 grid state used to evaluate subsampleGrid: the state a
buildGrid with ngrid 2 would store, with grid_g1 etc. holding the same
arrays as the images. -/
def exampleState : PSGridState where
  imG1 := [[1, 2], [3, 4]]
  imG2 := [[5, 6], [7, 8]]
  imKappa := [[9, 10], [11, 12]]
  gridG1 := [[1, 2], [3, 4]]
  gridG2 := [[5, 6], [7, 8]]
  gridKappa := [[9, 10], [11, 12]]
  gridSpacing := 1
  center := (0, 0)
  adjustCenter := true

/-- Claim C1 (code-bug evaluation): subsampling the stored 2x2 state by
factor 2 strides the stored images down to the 1x1 stride-2 arrays and
updates spacing and center, but the returned arrays are the stale
pre-subsample grid_g1/grid_g2/grid_kappa, not the strided ones. -/
theorem subsampleGrid_returns_stale_arrays :
    ∃ st2 ret, subsampleGrid exampleState 2 true = .ok (st2, ret) ∧
      st2.imG1 = [[1]] ∧ st2.imG2 = [[5]] ∧ st2.imKappa = [[9]] ∧
      st2.imG1 = stride2 2 exampleState.imG1 ∧
      st2.imG2 = stride2 2 exampleState.imG2 ∧
      st2.imKappa = stride2 2 exampleState.imKappa ∧
      st2.gridSpacing = 2 ∧ st2.center = (1 / 2, 1 / 2) ∧
      ret.1 = [[1, 2], [3, 4]] ∧ ret.2.1 = [[5, 6], [7, 8]] ∧
      ret.2.2 = some [[9, 10], [11, 12]] ∧
      ret.1 ≠ stride2 2 exampleState.imG1 ∧
      ret.2.1 ≠ stride2 2 exampleState.imG2 := by
  refine ⟨_, _, rfl, by decide, by decide, by decide, by decide, by decide,
    by decide, by norm_num [exampleState], by norm_num [exampleState, Prod.ext_iff],
    by decide, by decide, by decide, by decide, by decide⟩

/-- Claim C10: for a string power-function input that is not a file and
whose lambda conversion or trial evaluation fails, the handler references
the unbound name origpf while formatting its message, so the function
(and hence the constructor validation) raises NameError rather than the
intended ValueError. -/
theorem convertPowerFunction_raises_nameError
    (isFile evalOk : String → Bool) (s : String)
    (hf : isFile s = false) (he : evalOk s = false) :
    convertPowerFunctionString isFile evalOk s = .error (.nameError "origpf") ∧
    powerSpectrumInitStrings isFile evalOk (some s) none =
      .error (.nameError "origpf") ∧
    "origpf" ∉ convertLocals := by
  have hmsg : convertErrorMessage = .error (.nameError "origpf") := rfl
  have h1 : convertPowerFunctionString isFile evalOk s =
      .error (.nameError "origpf") := by
    simp [convertPowerFunctionString, hf, he, hmsg]
  refine ⟨h1, ?_, by decide⟩
  simp [powerSpectrumInitStrings, h1]

/-- Claim C10, witness at a concrete failing string. -/
theorem convertPowerFunction_raises_nameError_witness :
    convertPowerFunctionString (fun _ => false) (fun _ => false) "k ** -"
      = .error (.nameError "origpf") :=
  (convertPowerFunction_raises_nameError (fun _ => false) (fun _ => false)
    "k ** -" rfl rfl).1

/-- Claim C5: after _make_hermitian, the mode Fourier arrays built in
__call__ (both the E-mode and the B-mode array arise as modeField)
satisfy F[-i, -j] = conj(F[i, j]) for every index pair, and the
self-paired bins — (0,0) and, for even N, (N/2,0), (0,N/2) and
(N/2,N/2) — are real. -/
theorem modeField_hermitian (n : ℕ) [NeZero n] (amp r1 r2 : HMat n)
    (isqrt2 : ℚ) (junk : CMat n) (i j : Fin n) :
    modeField n amp r1 r2 isqrt2 junk (-i) (-j) =
      Cq.conj (modeField n amp r1 r2 isqrt2 junk i j) ∧
    ((i.val = 0 ∧ j.val = 0) ∨
        (n % 2 = 0 ∧ (i.val = 0 ∨ i.val = n / 2) ∧ (j.val = 0 ∨ j.val = n / 2)) →
      (modeField n amp r1 r2 isqrt2 junk i j).im = 0) := by
  have h1 := makeHermitian_conjNeg (halfPlaneFill n amp r1 r2 isqrt2 junk) i j
  refine ⟨h1, fun hsp => ?_⟩
  have hvi0 : i.val = 0 → (-i).val = 0 := finValNegOfZero i
  have hvi1 : 1 ≤ i.val → (-i).val = n - i.val := finValNegOfPos i
  have hvj0 : j.val = 0 → (-j).val = 0 := finValNegOfZero j
  have hvj1 : 1 ≤ j.val → (-j).val = n - j.val := finValNegOfPos j
  have ei : -i = i := Fin.ext (by omega)
  have ej : -j = j := Fin.ext (by omega)
  rw [ei, ej] at h1
  have h2 := congrArg Cq.im h1
  simp only [Cq.conj] at h2
  unfold modeField
  linarith

/-- Claim C5, witness: the even-N Nyquist bin (N/2, 0) of a concrete
2x2 realization is real. -/
theorem modeField_hermitian_witness :
    (modeField 2 (fun _ _ => 1) (fun _ _ => 1) (fun _ _ => 1) 1
      (fun _ _ => Cq.zero) ⟨1, by omega⟩ ⟨0, by omega⟩).im = 0 :=
  (modeField_hermitian 2 (fun _ _ => 1) (fun _ _ => 1) (fun _ _ => 1) 1
    (fun _ _ => Cq.zero) ⟨1, by omega⟩ ⟨0, by omega⟩).2
    (Or.inr ⟨rfl, Or.inr rfl, Or.inl rfl⟩)

/-- Evaluation of the half-plane fill at a cell of the stored half plane,
with the column index generalised. -/
theorem halfPlaneFill_eval (n : ℕ) (amp r1 r2 : HMat n) (isqrt2 : ℚ)
    (junk : CMat n) (y x : Fin n) (xc : Fin (n / 2 + 1))
    (hx : x.val ≤ n / 2) (hxc : xc.val = x.val) :
    halfPlaneFill n amp r1 r2 isqrt2 junk y x =
      ⟨amp y xc * r1 y xc * isqrt2, amp y xc * r2 y xc * isqrt2⟩ := by
  unfold halfPlaneFill
  rw [dif_pos hx]
  have e : (⟨x.val, by omega⟩ : Fin (n / 2 + 1)) = xc := Fin.ext hxc.symm
  rw [e]

/-- Claim C3: for every power function, a successfully generated power
array is exactly zero in the k=0 bin, and consequently the realized
E-mode Fourier array — whose k=0 coefficient is the k=0 Fourier
amplitude of the kappa grid produced by the inverse rFFT — is zero at
the origin bin for every draw. -/
theorem generatePowerArray_zero_at_origin (n : ℕ) (hn : 2 ≤ n)
    (kq : Fin (n / 2 + 1) → Fin (n / 2 + 1) → ℚ) (pf : PowerFun) (pa : HMat n)
    (h : generatePowerArray n hn kq pf = .ok pa) :
    (∀ (y : Fin n) (x : Fin (n / 2 + 1)), y.val = 0 → x.val = 0 → pa y x = 0) ∧
    (∀ (pixelSize : ℚ) (sqrtFn : ℚ → ℚ), sqrtFn 0 = 0 →
      ∀ (r1 r2 : HMat n) (isqrt2 : ℚ) (junk : CMat n) (i j : Fin n),
        i.val = 0 → j.val = 0 →
        modeField n (fun y x => sqrtFn (pa y x) / pixelSize) r1 r2 isqrt2 junk
          i j = Cq.zero) := by
  have hfirst : ∀ (y : Fin n) (x : Fin (n / 2 + 1)),
      y.val = 0 → x.val = 0 → pa y x = 0 := by
    intro y x hy hx
    simp only [generatePowerArray] at h
    split_ifs at h with h1 h2
    injection h with h
    rw [← h]
    simp [hy, hx]
  refine ⟨hfirst, ?_⟩
  intro pixelSize sqrtFn hs r1 r2 isqrt2 junk i j hi hj
  unfold modeField
  rw [makeHermitian_self_origin _ i j hi hj]
  have hjlt : j.val < n / 2 + 1 := by omega
  have hampz : sqrtFn (pa i ⟨j.val, hjlt⟩) / pixelSize = 0 := by
    rw [hfirst i ⟨j.val, hjlt⟩ hi hj, hs, zero_div]
  rw [halfPlaneFill_eval n (fun y x => sqrtFn (pa y x) / pixelSize) r1 r2 isqrt2
    junk i j ⟨j.val, hjlt⟩ (by omega) rfl]
  simp [Cq.realPart, Cq.zero, hampz]

/-- Claim C3, witness at a concrete 2x2 configuration. -/
theorem generatePowerArray_zero_at_origin_witness :
    ∃ pa : HMat 2,
      generatePowerArray 2 (by omega) (fun _ _ => 1) (.callable (fun k => k))
        = .ok pa ∧
      pa ⟨0, by omega⟩ ⟨0, by omega⟩ = 0 ∧
      modeField 2 (fun y x => (fun q => q) (pa y x) / 1) (fun _ _ => 1)
        (fun _ _ => 1) 1 (fun _ _ => Cq.zero) ⟨0, by omega⟩ ⟨0, by omega⟩
        = Cq.zero := by
  refine ⟨_, rfl, ?_, ?_⟩
  · exact (generatePowerArray_zero_at_origin 2 (by omega) (fun _ _ => 1)
      (.callable (fun k => k)) _ rfl).1 ⟨0, by omega⟩ ⟨0, by omega⟩ rfl rfl
  · exact (generatePowerArray_zero_at_origin 2 (by omega) (fun _ _ => 1)
      (.callable (fun k => k)) _ rfl).2 1 (fun q => q) rfl (fun _ _ => 1)
      (fun _ _ => 1) 1 (fun _ _ => Cq.zero) ⟨0, by omega⟩ ⟨0, by omega⟩ rfl rfl

/-- A power-spectrum input is invalid for the realizer when it is
negative somewhere on the sampled grid away from the forced-zero k=0
bin, or when it is a LookupTable whose domain misses part of the grid. -/
def powerInputBad (n : ℕ) (hn : 2 ≤ n)
    (kq : Fin (n / 2 + 1) → Fin (n / 2 + 1) → ℚ) (pf : PowerFun) : Prop :=
  (∃ y x, ¬(y.val = 0 ∧ x.val = 0) ∧ pf.eval (fudgedK n hn kq y x) < 0) ∨
  lookupDomainBad n (fudgedK n hn kq) pf = true

/-- An invalid power input makes _generate_power_array raise. -/
theorem generatePowerArray_error_of_bad (n : ℕ) (hn : 2 ≤ n)
    (kq : Fin (n / 2 + 1) → Fin (n / 2 + 1) → ℚ) (pf : PowerFun)
    (h : powerInputBad n hn kq pf) :
    ∃ msg, generatePowerArray n hn kq pf = .error msg := by
  by_cases hdom : lookupDomainBad n (fudgedK n hn kq) pf = true
  · exact ⟨"LookupTable P(k) is not defined for full k range on grid", by
      simp only [generatePowerArray]
      rw [if_pos hdom]⟩
  · rcases h with ⟨y, x, hnz, hneg⟩ | hbad
    · have hP : ∃ (y : Fin (n / 2 + 1)) (x : Fin (n / 2 + 1)),
          (if y.val = 0 ∧ x.val = 0 then (0 : ℚ)
           else pf.eval (fudgedK n hn kq y x)) < 0 :=
        ⟨y, x, by rw [if_neg hnz]; exact hneg⟩
      exact ⟨"Negative power found for some values of k!", by
        simp only [generatePowerArray]
        rw [if_neg hdom, if_pos (decide_eq_true hP)]⟩
    · exact absurd hbad hdom

/-- Claim C4: if either supplied power function is negative somewhere on
the sampled grid away from the forced-zero bin (or a tabulated one does
not cover the grid k range), buildGrid fails with a fatal error raised
during realizer construction, and the random stream cursor is exactly
where it started: no Gaussian draw is consumed. -/
theorem buildGridRealize_fails_before_draws
    (ngrid kminFactor kmaxFactor : ℕ) (hn : 2 ≤ ngrid * kminFactor * kmaxFactor)
    (kq : Fin (ngrid * kminFactor * kmaxFactor / 2 + 1) →
      Fin (ngrid * kminFactor * kmaxFactor / 2 + 1) → ℚ)
    (pE pB : Option PowerFun) (gridSpacing : ℚ) (sqrtFn : ℚ → ℚ)
    (isqrt2 : ℚ) (junkE junkB : CMat (ngrid * kminFactor * kmaxFactor))
    (g : ℕ → ℚ) (c : ℕ)
    (hbad : (∃ pf, pE = some pf ∧ powerInputBad _ hn kq pf) ∨
      (∃ pf, pB = some pf ∧ powerInputBad _ hn kq pf)) :
    (∃ msg, (buildGridRealize ngrid kminFactor kmaxFactor hn kq pE pB
        gridSpacing sqrtFn isqrt2 junkE junkB g c).1 = .error msg) ∧
    (buildGridRealize ngrid kminFactor kmaxFactor hn kq pE pB gridSpacing
        sqrtFn isqrt2 junkE junkB g c).2 = c := by
  simp only [buildGridRealize]
  rcases hE : setPowerOpt (ngrid * kminFactor * kmaxFactor) hn kq pE
      (gridSpacing / (kmaxFactor : ℚ)) sqrtFn with e | aE
  · simp
  · rcases hB : setPowerOpt (ngrid * kminFactor * kmaxFactor) hn kq pB
        (gridSpacing / (kmaxFactor : ℚ)) sqrtFn with e | aB
    · simp
    · exfalso
      rcases hbad with ⟨pf, hpe, hbadpf⟩ | ⟨pf, hpb, hbadpf⟩
      · obtain ⟨msg, hmsg⟩ := generatePowerArray_error_of_bad _ hn kq pf hbadpf
        rw [hpe] at hE
        simp [setPowerOpt, hmsg] at hE
      · obtain ⟨msg, hmsg⟩ := generatePowerArray_error_of_bad _ hn kq pf hbadpf
        rw [hpb] at hB
        simp [setPowerOpt, hmsg] at hB

/-- Claim C4, witness: a strictly negative callable power at a concrete
2x2 configuration fails and consumes no draw (the cursor stays at 7). -/
theorem buildGridRealize_fails_before_draws_witness :
    (∃ msg, (buildGridRealize 2 1 1 (by omega) (fun _ _ => 1)
      (some (.callable (fun _ => -1))) none 1 (fun q => q) 1
      (fun _ _ => Cq.zero) (fun _ _ => Cq.zero) (fun _ => 0) 7).1
        = .error msg) ∧
    (buildGridRealize 2 1 1 (by omega) (fun _ _ => 1)
      (some (.callable (fun _ => -1))) none 1 (fun q => q) 1
      (fun _ _ => Cq.zero) (fun _ _ => Cq.zero) (fun _ => 0) 7).2 = 7 :=
  buildGridRealize_fails_before_draws 2 1 1 (by omega) (fun _ _ => 1)
    (some (.callable (fun _ => -1))) none 1 (fun q => q) 1
    (fun _ _ => Cq.zero) (fun _ _ => Cq.zero) (fun _ => 0) 7
    (Or.inl ⟨_, rfl, Or.inl ⟨⟨0, by omega⟩, ⟨1, by omega⟩, by decide,
      by norm_num [PowerFun.eval]⟩⟩)

/-- One mode consumes exactly two half-plane arrays of draws:
2 * n * (n/2 + 1) scalars. -/
theorem modeFourier_cursor (n : ℕ) (amp : HMat n) (isqrt2 : ℚ) (junk : CMat n)
    (g : ℕ → ℚ) (c : ℕ) :
    (modeFourier n amp isqrt2 junk g c).2 = c + 2 * (n * (n / 2 + 1)) := by
  simp only [modeFourier, randArr]
  ring

/-- The realizer call consumes the draws of each active mode, E first. -/
theorem realizerCall_cursor (n : ℕ) (ampE ampB : Option (HMat n))
    (isqrt2 : ℚ) (junkE junkB : CMat n) (g : ℕ → ℚ) (c : ℕ) :
    (realizerCall n ampE ampB isqrt2 junkE junkB g c).2 =
      c + (if ampE.isSome then 2 * (n * (n / 2 + 1)) else 0) +
        (if ampB.isSome then 2 * (n * (n / 2 + 1)) else 0) := by
  cases ampE <;> cases ampB <;>
    simp [realizerCall, modeFourier_cursor, Nat.add_assoc]

/-- A successful set_power yields an amplitude exactly when a power
function was supplied. -/
theorem setPowerOpt_isSome (n : ℕ) (hn : 2 ≤ n)
    (kq : Fin (n / 2 + 1) → Fin (n / 2 + 1) → ℚ) (pfo : Option PowerFun)
    (pixelSize : ℚ) (sqrtFn : ℚ → ℚ) (aO : Option (HMat n))
    (h : setPowerOpt n hn kq pfo pixelSize sqrtFn = .ok aO) :
    aO.isSome = pfo.isSome := by
  cases pfo with
  | none =>
    simp only [setPowerOpt] at h
    injection h with h
    rw [← h]
    rfl
  | some pf =>
    simp only [setPowerOpt] at h
    rcases hg : generatePowerArray n hn kq pf with e | pa
    · rw [hg] at h
      exact absurd h (by simp)
    · rw [hg] at h
      injection h with h
      rw [← h]
      rfl

/-- Claim C6: after a successful buildGrid, the advance of the random
stream cursor equals nRandCallsForBuildGrid of the total grid size
ngrid * kmin_factor * kmax_factor with the supplied modes: the realizer
consumed exactly that many scalar Gaussian draws, E-mode r1 and r2
arrays first, then the B-mode arrays. -/
theorem nRandCalls_matches_draws
    (ngrid kminFactor kmaxFactor : ℕ) (hn : 2 ≤ ngrid * kminFactor * kmaxFactor)
    (kq : Fin (ngrid * kminFactor * kmaxFactor / 2 + 1) →
      Fin (ngrid * kminFactor * kmaxFactor / 2 + 1) → ℚ)
    (pE pB : Option PowerFun) (gridSpacing : ℚ) (sqrtFn : ℚ → ℚ)
    (isqrt2 : ℚ) (junkE junkB : CMat (ngrid * kminFactor * kmaxFactor))
    (g : ℕ → ℚ) (c : ℕ)
    {grids : CMat (ngrid * kminFactor * kmaxFactor) ×
      CMat (ngrid * kminFactor * kmaxFactor)}
    (h : (buildGridRealize ngrid kminFactor kmaxFactor hn kq pE pB gridSpacing
      sqrtFn isqrt2 junkE junkB g c).1 = .ok grids) :
    (buildGridRealize ngrid kminFactor kmaxFactor hn kq pE pB gridSpacing
      sqrtFn isqrt2 junkE junkB g c).2 =
      c + nRandCallsForBuildGrid (ngrid * kminFactor * kmaxFactor)
        pE.isSome pB.isSome := by
  simp only [buildGridRealize] at h ⊢
  rcases hE : setPowerOpt (ngrid * kminFactor * kmaxFactor) hn kq pE
      (gridSpacing / (kmaxFactor : ℚ)) sqrtFn with e | aE
  · rw [hE] at h
    exact Except.noConfusion h
  · rcases hB : setPowerOpt (ngrid * kminFactor * kmaxFactor) hn kq pB
        (gridSpacing / (kmaxFactor : ℚ)) sqrtFn with e | aB
    · rw [hE, hB] at h
      exact Except.noConfusion h
    · show (realizerCall (ngrid * kminFactor * kmaxFactor) aE aB isqrt2
        junkE junkB g c).2 = _
      rw [realizerCall_cursor]
      rw [setPowerOpt_isSome _ hn kq pE _ sqrtFn aE hE,
        setPowerOpt_isSome _ hn kq pB _ sqrtFn aB hB]
      unfold nRandCallsForBuildGrid
      cases pE.isSome <;> cases pB.isSome <;> simp [Nat.add_assoc]

/-- Claim C6, witness: a concrete E-mode-only build on a 2x2 grid starting
at cursor 5 advances the cursor by nRandCallsForBuildGrid. -/
theorem nRandCalls_matches_draws_witness :
    (buildGridRealize 2 1 1 (by omega) (fun _ _ => 1)
      (some (.callable (fun _ => 1))) none 1 (fun q => q) 1
      (fun _ _ => Cq.zero) (fun _ _ => Cq.zero) (fun _ => 0) 5).2 =
      5 + nRandCallsForBuildGrid (2 * 1 * 1) (some (PowerFun.callable (fun _ => 1))).isSome
        (none : Option PowerFun).isSome :=
  nRandCalls_matches_draws 2 1 1 (by omega) (fun _ _ => 1)
    (some (.callable (fun _ => 1))) none 1 (fun q => q) 1
    (fun _ _ => Cq.zero) (fun _ _ => Cq.zero) (fun _ => 0) 5 rfl

/-- The query loop returns one value per input position. -/
theorem queryLoop_length {α : Type} (f : ℚ × ℚ → α × Bool) (ps : List (ℚ × ℚ)) :
    (queryLoop f ps).1.length = ps.length := by
  induction ps with
  | nil => rfl
  | cons p tl ih => simp [queryLoop, ih]

/-- The i-th value of the query loop depends only on the i-th position. -/
theorem queryLoop_get {α : Type} (f : ℚ × ℚ → α × Bool) (ps : List (ℚ × ℚ))
    (i : ℕ) (hi : i < ps.length) (hi2 : i < (queryLoop f ps).1.length) :
    (queryLoop f ps).1.get ⟨i, hi2⟩ = (f (ps.get ⟨i, hi⟩)).1 := by
  induction ps generalizing i with
  | nil => exact absurd hi (by simp)
  | cons p tl ih =>
    cases i with
    | zero => rfl
    | succ k =>
      have hk : k < tl.length := by simpa using hi
      have hk2 : k < (queryLoop f tl).1.length := by
        rw [queryLoop_length]
        exact hk
      exact ih k hk hk2

/-- The warning counter counts exactly the positions whose point query
warned. -/
theorem queryLoop_warnings {α : Type} (f : ℚ × ℚ → α × Bool)
    (ps : List (ℚ × ℚ)) :
    (queryLoop f ps).2 = ps.countP (fun p => (f p).2) := by
  induction ps with
  | nil => rfl
  | cons p tl ih =>
    simp only [queryLoop, ih, List.countP_cons]
    cases hfp : (f p).2
    · simp [hfp]
    · simp [hfp]
      omega

/-- Claim C7: with periodic=False, every position outside the stored
expanded bounds yields shear (0,0), convergence 0 and magnification 1
with a warning counted (no exception: the loop is total and returns one
value per position), while in-bounds positions in the same query are
interpolated normally through the xValue surfaces at the kernel
coordinate. -/
theorem query_outOfBounds_fallback (qg : QueryGeom)
    (xv1 xv2 xvk xvmu : ℚ × ℚ → ℚ) (ps : List (ℚ × ℚ)) (i : ℕ)
    (hi : i < ps.length) :
    (queryLoop (getShearPoint qg xv1 xv2 false) ps).1.length = ps.length ∧
    (qg.bounds.includes (ps.get ⟨i, hi⟩) = false →
      (queryLoop (getShearPoint qg xv1 xv2 false) ps).1.get
        ⟨i, by rw [queryLoop_length]; exact hi⟩ = (0, 0) ∧
      (queryLoop (getConvergencePoint qg xvk false) ps).1.get
        ⟨i, by rw [queryLoop_length]; exact hi⟩ = 0 ∧
      (queryLoop (getMagnificationPoint qg xvmu false) ps).1.get
        ⟨i, by rw [queryLoop_length]; exact hi⟩ = 1) ∧
    (qg.bounds.includes (ps.get ⟨i, hi⟩) = true →
      (queryLoop (getShearPoint qg xv1 xv2 false) ps).1.get
        ⟨i, by rw [queryLoop_length]; exact hi⟩ =
        (xv1 (kernelCoord qg (ps.get ⟨i, hi⟩)),
         xv2 (kernelCoord qg (ps.get ⟨i, hi⟩))) ∧
      (queryLoop (getConvergencePoint qg xvk false) ps).1.get
        ⟨i, by rw [queryLoop_length]; exact hi⟩ =
        xvk (kernelCoord qg (ps.get ⟨i, hi⟩)) ∧
      (queryLoop (getMagnificationPoint qg xvmu false) ps).1.get
        ⟨i, by rw [queryLoop_length]; exact hi⟩ =
        xvmu (kernelCoord qg (ps.get ⟨i, hi⟩)) + 1) ∧
    (queryLoop (getShearPoint qg xv1 xv2 false) ps).2 =
      ps.countP (fun p => !(qg.bounds.includes p)) := by
  refine ⟨queryLoop_length _ _, fun hout => ⟨?_, ?_, ?_⟩,
    fun hin => ⟨?_, ?_, ?_⟩, ?_⟩
  · rw [queryLoop_get _ ps i hi]
    simp only [List.get_eq_getElem] at hout
    simp [getShearPoint, hout]
  · rw [queryLoop_get _ ps i hi]
    simp only [List.get_eq_getElem] at hout
    simp [getConvergencePoint, hout]
  · rw [queryLoop_get _ ps i hi]
    simp only [List.get_eq_getElem] at hout
    simp [getMagnificationPoint, hout]
  · rw [queryLoop_get _ ps i hi]
    simp only [List.get_eq_getElem] at hin
    simp [getShearPoint, hin]
  · rw [queryLoop_get _ ps i hi]
    simp only [List.get_eq_getElem] at hin
    simp [getConvergencePoint, hin]
  · rw [queryLoop_get _ ps i hi]
    simp only [List.get_eq_getElem] at hin
    simp [getMagnificationPoint, hin]
  · rw [queryLoop_warnings]
    apply List.countP_congr
    intro p _
    cases h : qg.bounds.includes p <;> simp [getShearPoint, h]

/-- Claim C7, witness: a query mixing one out-of-bounds and one in-bounds
position on a concrete unit-square geometry. -/
theorem query_outOfBounds_fallback_witness :
    (QueryGeom.mk ⟨0, 1, 0, 1⟩ (0, 0) 1).bounds.includes ((2 : ℚ), (0 : ℚ))
      = false ∧
    (queryLoop (getShearPoint (QueryGeom.mk ⟨0, 1, 0, 1⟩ (0, 0) 1)
      Prod.fst Prod.snd false) [((2 : ℚ), (0 : ℚ))]).1.get
      ⟨0, by rw [queryLoop_length]; decide⟩ = (0, 0) := by
  have h := query_outOfBounds_fallback (QueryGeom.mk ⟨0, 1, 0, 1⟩ (0, 0) 1)
    Prod.fst Prod.snd Prod.fst Prod.fst [((2 : ℚ), (0 : ℚ))] 0 (by decide)
  have hout : (QueryGeom.mk ⟨0, 1, 0, 1⟩ (0, 0) 1).bounds.includes
      (([((2 : ℚ), (0 : ℚ))]).get ⟨0, by decide⟩) = false := by decide
  exact ⟨hout, (h.2.1 hout).1⟩

/-- Claim C9: with a vanishing E-mode power function and no B mode, both
correlation-function integrands vanish identically, so calculateXi
returns all-zero xi arrays of length n_theta, for every grid
configuration, unit scale, delta2 flag and band-limit policy. -/
theorem calculateXi_zero_power (epf : ℚ → ℚ) (delta2 : Bool) (scale : ℚ)
    (bl : ℚ → ℚ → ℚ) (piV gridSpacing : ℚ) (ngrid kminFactor kmaxFactor : ℕ)
    (nTheta : ℕ) (theta : Fin nTheta → ℚ) (int1d : (ℚ → ℚ) → ℚ → ℚ → ℚ)
    (j0 j4 : ℚ → ℚ) (hzero : ∀ k, epf k = 0)
    (hint : ∀ f a b, (∀ x, f x = 0) → int1d f a b = 0) (i : Fin nTheta) :
    (calculateXiE epf delta2 scale bl piV gridSpacing ngrid kminFactor
      kmaxFactor nTheta theta int1d j0 j4).1 i = 0 ∧
    (calculateXiE epf delta2 scale bl piV gridSpacing ngrid kminFactor
      kmaxFactor nTheta theta int1d j0 j4).2 i = 0 := by
  have hpE : ∀ kmv k, wrapPower epf delta2 scale bl piV kmv k = 0 := by
    intro kmv k
    unfold wrapPower
    split_ifs <;> simp [hzero]
  have hip : ∀ (r a b : ℚ),
      int1d (xipIntegrand (wrapPower epf delta2 scale bl piV
        ((kmaxFactor : ℚ) * piV / gridSpacing)) r j0) a b = 0 := by
    intro r a b
    apply hint
    intro x
    simp [xipIntegrand, hpE]
  have him : ∀ (r a b : ℚ),
      int1d (ximIntegrand (wrapPower epf delta2 scale bl piV
        ((kmaxFactor : ℚ) * piV / gridSpacing)) r j4) a b = 0 := by
    intro r a b
    apply hint
    intro x
    simp [ximIntegrand, hpE]
  constructor
  · show int1d _ _ _ / (2 * piV) = 0
    rw [hip, zero_div]
  · show int1d _ _ _ / (2 * piV) = 0
    rw [him, zero_div]

/-- Claim C9, witness: a concrete configuration with a rectangle-rule
integrator and trivial Bessel stand-ins. -/
theorem calculateXi_zero_power_witness :
    (calculateXiE (fun _ => 0) false 1 hardCutoff 3 1 2 1 1 1 (fun _ => 1)
      (fun f a b => (b - a) * f a) (fun _ => 1) (fun _ => 1)).1 ⟨0, one_pos⟩
      = 0 ∧
    (calculateXiE (fun _ => 0) false 1 hardCutoff 3 1 2 1 1 1 (fun _ => 1)
      (fun f a b => (b - a) * f a) (fun _ => 1) (fun _ => 1)).2 ⟨0, one_pos⟩
      = 0 :=
  calculateXi_zero_power (fun _ => 0) false 1 hardCutoff 3 1 2 1 1 1
    (fun _ => 1) (fun f a b => (b - a) * f a) (fun _ => 1) (fun _ => 1)
    (fun _ => rfl) (fun f a b h => by simp [h]) ⟨0, one_pos⟩

end LensingPS
